import Mathlib

/-!
Shallow embedding of the dynamodb-autoquery query planner (Go) in Lean 4:
the filter/expression model, the table-index catalog, the index viability
and scoring algorithm, the request compiler, and the paginated parser
state machine, together with theorems checking the specification's claims.

Conventions of the embedding:
* Go `float64` scores and thresholds are embedded as exact rationals; the
  constant `math.MaxFloat64` is the exact rational value of that float.
* Go string-keyed maps are embedded as association lists with
  overwrite-on-insert semantics; a nil map is `Option.none` wherever the
  code distinguishes nil from empty (assignment to a nil map faults).
* Go `interface{}` condition values are a type parameter `V`.
* Operations that can panic (nil-map assignment, failed type assertion,
  out-of-range indexing) return `Option`, with `none` for the fault.
-/

namespace Autoquery

/-- Condition-filter variants from filters.go: one constructor per concrete
Go filter struct (`equalsFilter`, `lessThanFilter`, ...). -/
inductive conditionFilter (V : Type) where
  | equalsFilter (value : V)
  | lessThanFilter (value : V)
  | greaterThanFilter (value : V)
  | lessThanEqualFilter (value : V)
  | greaterThanEqualFilter (value : V)
  | betweenFilter (lowval highval : V)
  | beginsWithFilter (pfx : String)
deriving DecidableEq

/-- Association-list model of a Go `map[string]conditionFilter`. -/
abbrev FilterMap (V : Type) : Type := List (String × conditionFilter V)

/-- Go map read `m[k]`: the second result of the comma-ok idiom is `isSome`. -/
def mapLookup {α : Type} (m : List (String × α)) (k : String) : Option α :=
  match m with
  | [] => none
  | (k', v') :: rest => if k' = k then some v' else mapLookup rest k

/-- Go map assignment `m[k] = v`: overwrites an existing binding. -/
def mapInsert {α : Type} (m : List (String × α)) (k : String) (v : α) :
    List (String × α) :=
  match m with
  | [] => [(k, v)]
  | (k', v') :: rest =>
      if k' = k then (k, v) :: rest else (k', v') :: mapInsert rest k v

/-- Go `delete(m, k)`. -/
def mapDelete {α : Type} (m : List (String × α)) (k : String) :
    List (String × α) :=
  match m with
  | [] => []
  | (k', v') :: rest =>
      if k' = k then mapDelete rest k else (k', v') :: mapDelete rest k

/-- Opaque model of an `expression.ConditionBuilder` from the AWS SDK: the
seven structured comparisons the compiler emits, conjunction, plus an
opaque constructor for externally built conditions passed to
`Expression.Filter`. -/
inductive ConditionExpr (V : Type) where
  | equalCond (attr : String) (v : V)
  | lessThanCond (attr : String) (v : V)
  | greaterThanCond (attr : String) (v : V)
  | lessThanEqualCond (attr : String) (v : V)
  | greaterThanEqualCond (attr : String) (v : V)
  | betweenCond (attr : String) (lo hi : V)
  | beginsWithCond (attr : String) (pfx : String)
  | andCond (a b : ConditionExpr V)
  | opaqueCond (tag : Nat)
deriving DecidableEq

/-- Model of an `expression.KeyConditionBuilder` from the AWS SDK. -/
inductive KeyCond (V : Type) where
  | keyEqual (attr : String) (v : V)
  | keyLessThan (attr : String) (v : V)
  | keyGreaterThan (attr : String) (v : V)
  | keyLessThanEqual (attr : String) (v : V)
  | keyGreaterThanEqual (attr : String) (v : V)
  | keyBetween (attr : String) (lo hi : V)
  | keyBeginsWith (attr : String) (pfx : String)
  | keyAnd (a b : KeyCond V)
deriving DecidableEq

/-- Expression from expression.go.  `filters` is `none` when the Go map is
nil (as `NewExpression` leaves it) and `some m` when initialized. -/
structure Expression (V : Type) where
  filters : Option (FilterMap V)
  attributesSpecified : Bool
  attributes : List String
  orderSpecified : Bool
  orderAttribute : String
  orderAscending : Bool
  consistentRead : Bool
  additionalConditions : List (ConditionExpr V)
deriving DecidableEq

/-- NewExpression from expression.go: the struct literal initializes only
`attributes` and `additionalConditions`; every other field takes its Go
zero value, so `filters` is the nil map. -/
def NewExpression (V : Type) : Expression V :=
  { filters := none
    attributesSpecified := false
    attributes := []
    orderSpecified := false
    orderAttribute := ""
    orderAscending := false
    consistentRead := false
    additionalConditions := [] }

/-- Helper shared by the condition-adding methods: the Go assignment
`expr.filters[attr] = f` faults when the map is nil. -/
def Expression.putFilter (expr : Expression V) (attr : String)
    (f : conditionFilter V) : Option (Expression V) :=
  match expr.filters with
  | none => none
  | some m => some { expr with filters := some (mapInsert m attr f) }

/-- Expression.Equal from expression.go. -/
def Expression.Equal (expr : Expression V) (attr : String) (v : V) :
    Option (Expression V) :=
  expr.putFilter attr (.equalsFilter v)

/-- Expression.LessThan from expression.go. -/
def Expression.LessThan (expr : Expression V) (attr : String) (v : V) :
    Option (Expression V) :=
  expr.putFilter attr (.lessThanFilter v)

/-- Expression.GreaterThan from expression.go. -/
def Expression.GreaterThan (expr : Expression V) (attr : String) (v : V) :
    Option (Expression V) :=
  expr.putFilter attr (.greaterThanFilter v)

/-- Expression.LessThanEqual from expression.go. -/
def Expression.LessThanEqual (expr : Expression V) (attr : String) (v : V) :
    Option (Expression V) :=
  expr.putFilter attr (.lessThanEqualFilter v)

/-- Expression.GreaterThanEqual from expression.go. -/
def Expression.GreaterThanEqual (expr : Expression V) (attr : String) (v : V) :
    Option (Expression V) :=
  expr.putFilter attr (.greaterThanEqualFilter v)

/-- Expression.Between from expression.go. -/
def Expression.Between (expr : Expression V) (attr : String) (lowval highval : V) :
    Option (Expression V) :=
  expr.putFilter attr (.betweenFilter lowval highval)

/-- Expression.BeginsWith from expression.go. -/
def Expression.BeginsWith (expr : Expression V) (attr : String) (pfx : String) :
    Option (Expression V) :=
  expr.putFilter attr (.beginsWithFilter pfx)

/-- Expression.OrderBy from expression.go. -/
def Expression.OrderBy (expr : Expression V) (attr : String) (ascending : Bool) :
    Expression V :=
  { expr with orderSpecified := true, orderAttribute := attr,
              orderAscending := ascending }

/-- Expression.Select from expression.go. -/
def Expression.SelectAttrs (expr : Expression V) (attrs : List String) :
    Expression V :=
  { expr with attributesSpecified := true,
              attributes := expr.attributes ++ attrs }

/-- Expression.ConsistentRead from expression.go. -/
def Expression.ConsistentRead (expr : Expression V) (val : Bool) :
    Expression V :=
  { expr with consistentRead := val }

/-- Expression.Filter from expression.go. -/
def Expression.Filter (expr : Expression V) (c : ConditionExpr V) :
    Expression V :=
  { expr with additionalConditions := expr.additionalConditions ++ [c] }

/-- ConditionKey from conditionkey.go. -/
structure ConditionKey (V : Type) where
  expr : Expression V
  attr : String

/-- Key from conditionkey.go: starts a fresh expression. -/
def Key (V : Type) (attr : String) : ConditionKey V :=
  { expr := NewExpression V, attr := attr }

/-- ConditionKey.Equal from conditionkey.go. -/
def ConditionKey.Equal (key : ConditionKey V) (v : V) : Option (Expression V) :=
  key.expr.Equal key.attr v

/-- ConditionKey.LessThan from conditionkey.go. -/
def ConditionKey.LessThan (key : ConditionKey V) (v : V) : Option (Expression V) :=
  key.expr.LessThan key.attr v

/-- ConditionKey.GreaterThan from conditionkey.go. -/
def ConditionKey.GreaterThan (key : ConditionKey V) (v : V) :
    Option (Expression V) :=
  key.expr.GreaterThan key.attr v

/-- ConditionKey.LessThanEqual from conditionkey.go. -/
def ConditionKey.LessThanEqual (key : ConditionKey V) (v : V) :
    Option (Expression V) :=
  key.expr.LessThanEqual key.attr v

/-- ConditionKey.GreaterThanEqual from conditionkey.go. -/
def ConditionKey.GreaterThanEqual (key : ConditionKey V) (v : V) :
    Option (Expression V) :=
  key.expr.GreaterThanEqual key.attr v

/-- ConditionKey.Between from conditionkey.go. -/
def ConditionKey.Between (key : ConditionKey V) (lowval highval : V) :
    Option (Expression V) :=
  key.expr.Between key.attr lowval highval

/-- ConditionKey.BeginsWith from conditionkey.go. -/
def ConditionKey.BeginsWith (key : ConditionKey V) (pfx : String) :
    Option (Expression V) :=
  key.expr.BeginsWith key.attr pfx

/-- Reading `expr.filters[attr]` in Go: a read of a nil map yields the zero
value (a nil interface), embedded as `none`. -/
def Expression.filterOn (expr : Expression V) (attr : String) :
    Option (conditionFilter V) :=
  match expr.filters with
  | none => none
  | some m => mapLookup m attr

/-- Sentinel name of the primary index, from tableindex.go. -/
def tablePrimaryIndexName : String := "#primary"

/-- tableIndex from tableindex.go, in the revision used by client.go (with
the sparsity fields set by `inferSparseness` and read by
`scoreIndexOnExpr`).  Item counts are the non-negative DynamoDB item
counts; float64 fields are embedded as rationals.  `AttributeSet` is a
nil-able string set, kept as a list of its keys. -/
structure tableIndex where
  Name : String
  PartitionKey : String
  SortKey : String
  IsComposite : Bool
  AttributeSet : Option (List String)
  IncludesAllAttributes : Bool
  Size : Nat
  ConsistentReadable : Bool
  IsSparse : Bool
  Sparsity : ℚ
  SparsityMultiplier : ℚ
  HasMaxSparsityMultiplier : Bool
deriving DecidableEq

/-- Membership test `_, found := index.AttributeSet[attr]`; lookup on a nil
map reports not found. -/
def attributeSetHas (s : Option (List String)) (attr : String) : Bool :=
  match s with
  | none => false
  | some l => attr ∈ l

/-- The reflect-based `typesMatch` check of client.go specialized to its
one call site, which compares the dynamic type of `expr.filters[pk]`
against a fresh `equalsFilter` pointer: the types match exactly when the
looked-up value is an `equalsFilter`; a nil interface (missing key) never
matches. -/
def isEqualsFilter : Option (conditionFilter V) → Bool
  | some (.equalsFilter _) => true
  | _ => false

/-- ErrIndexNotViable from errors.go. -/
structure ErrIndexNotViable where
  IndexName : String
  NotViableReasons : List String
deriving DecidableEq, Repr

/-- ErrNoViableIndexes from errors.go. -/
structure ErrNoViableIndexes where
  IndexErrs : List ErrIndexNotViable
deriving DecidableEq

/-- Rule 1 of listIndexViabilityInfractions (client.go lines 255-261): the
partition key must carry an equals filter. -/
def infractionPartitionKey (index : tableIndex) (expr : Expression V) :
    List String :=
  if isEqualsFilter (expr.filterOn index.PartitionKey) then []
  else ["expression does not contain an equals condition on attribute: " ++
        index.PartitionKey]

/-- Rule 2 of listIndexViabilityInfractions (client.go lines 263-267):
consistent read requires a consistent-readable index. -/
def infractionConsistentRead (index : tableIndex) (expr : Expression V) :
    List String :=
  if expr.consistentRead ∧ ¬ index.ConsistentReadable then
    ["global secondary index does not support consistent read"]
  else []

/-- Rule 3 of listIndexViabilityInfractions (client.go lines 269-275): an
ordering attribute must be the index's sort key. -/
def infractionOrder (index : tableIndex) (expr : Expression V) :
    List String :=
  if expr.orderSpecified ∧ expr.orderAttribute ≠ index.SortKey then
    ["expression specifies order, so it requires an index with sort key: " ++
     expr.orderAttribute]
  else []

/-- The selected attributes missing from the index's attribute set
(client.go lines 280-285). -/
def indexMissingAttrs (index : tableIndex) (expr : Expression V) :
    List String :=
  expr.attributes.filter (fun a => !attributeSetHas index.AttributeSet a)

/-- Rule 4 of listIndexViabilityInfractions (client.go lines 277-295): the
index must include the selected attributes, or project all attributes
when Select was never called. -/
def infractionProjection (index : tableIndex) (expr : Expression V) :
    List String :=
  if ¬ index.IncludesAllAttributes then
    if expr.attributesSpecified then
      if indexMissingAttrs index expr ≠ [] then
        ["index does not include attributes: " ++
         String.intercalate ", " (indexMissingAttrs index expr)]
      else []
    else
      ["expression does not select attributes, so it requires an index that projects all"]
  else []

/-- Rule 5 of listIndexViabilityInfractions (client.go lines 297-307): a
sparse index's sort key must be filtered on or be the ordering
attribute. -/
def infractionSparse (index : tableIndex) (expr : Expression V) :
    List String :=
  if index.IsSparse ∧ (expr.filterOn index.SortKey).isNone ∧
      expr.orderAttribute ≠ index.SortKey then
    ["expression does not filter on sparse secondary index's sort key: " ++
     index.SortKey]
  else []

/-- listIndexViabilityInfractions from client.go (lines 250-310): collects
the reasons an index is not viable for an expression, in source order. -/
def listIndexViabilityInfractions (index : tableIndex) (expr : Expression V) :
    List String :=
  infractionPartitionKey index expr ++ infractionConsistentRead index expr ++
    infractionOrder index expr ++ infractionProjection index expr ++
    infractionSparse index expr

/-- Exact rational value of the Go constant `math.MaxFloat64`. -/
def maxFloat64 : ℚ := 2 ^ 1024 - 2 ^ 971

/-- scoreIndexOnExpr from client.go (lines 199-248).  The reflect-keyed
multiplier map is embedded as a match on the dynamic type of the sort-key
filter: `equalsFilter` maps to 2.5, `betweenFilter` to 1.8,
`beginsWithFilter` to 1.5, a nil interface (no filter looked up, which is
also the case for every non-composite index) to 0.2, and any other filter
type falls back to the 1.0 default. -/
def scoreIndexOnExpr (index : tableIndex) (expr : Expression V) :
    ℚ × Option ErrIndexNotViable :=
  let indexNotViableReasons := listIndexViabilityInfractions index expr
  if indexNotViableReasons.length > 0 then
    (0, some { IndexName := index.Name,
               NotViableReasons := indexNotViableReasons })
  else if index.HasMaxSparsityMultiplier then
    (maxFloat64, none)
  else
    let exprSortKeyFilter : Option (conditionFilter V) :=
      if index.IsComposite then expr.filterOn index.SortKey else none
    let sortKeyFilterTypeScore : ℚ :=
      match exprSortKeyFilter with
      | some (.equalsFilter _) => 5 / 2
      | some (.betweenFilter _ _) => 9 / 5
      | some (.beginsWithFilter _) => 3 / 2
      | none => 1 / 5
      | some _ => 1
    (index.SparsityMultiplier * sortKeyFilterTypeScore, none)

/-- The score component of `scoreIndexOnExpr`. -/
def indexScore (index : tableIndex) (expr : Expression V) : ℚ :=
  (scoreIndexOnExpr index expr).1

/-- Loop body of chooseIndex from client.go (lines 176-189): carries the
best index so far, the best score so far, and the accumulated
non-viability reports. -/
def chooseIndexLoop (expr : Expression V) :
    List tableIndex → Option tableIndex → ℚ → List ErrIndexNotViable →
    Option tableIndex × ℚ × List ErrIndexNotViable
  | [], bestIndex, bestIndexScore, inviableErrs =>
      (bestIndex, bestIndexScore, inviableErrs)
  | index :: rest, bestIndex, bestIndexScore, inviableErrs =>
      match scoreIndexOnExpr index expr with
      | (_, some inviableErr) =>
          chooseIndexLoop expr rest bestIndex bestIndexScore
            (inviableErrs ++ [inviableErr])
      | (score, none) =>
          if score > bestIndexScore then
            chooseIndexLoop expr rest (some index) score inviableErrs
          else
            chooseIndexLoop expr rest bestIndex bestIndexScore inviableErrs

/-- chooseIndex from client.go (lines 167-197), on an already-pulled index
catalog (the metadata fetch and cache are the calling collaborator's
side-effecting concern). -/
def chooseIndex (indexes : List tableIndex) (expr : Expression V) :
    Except ErrNoViableIndexes tableIndex :=
  match chooseIndexLoop expr indexes none 0 [] with
  | (none, _, inviableErrs) => .error { IndexErrs := inviableErrs }
  | (some bestIndex, _, _) => .ok bestIndex

/-- A `dynamodb.KeySchemaElement`: an attribute name tagged "HASH" or
"RANGE". -/
structure KeySchemaElement where
  AttributeName : String
  KeyType : String

/-- A `dynamodb.Projection`: "ALL", "KEYS_ONLY" or "INCLUDE" plus the
included non-key attributes. -/
structure Projection where
  ProjectionType : String
  NonKeyAttributes : List String

/-- A secondary-index descriptor as read by `parseTableIndexMetadata` from
a `dynamodb.GlobalSecondaryIndexDescription` or
`LocalSecondaryIndexDescription`. -/
structure SecondaryIndexDescription where
  IndexName : String
  ItemCount : Nat
  KeySchema : List KeySchemaElement
  Proj : Option Projection

/-- The fields of a `dynamodb.TableDescription` read by
`parseTableIndexMetadata`; the secondary-index lists are nil-able. -/
structure TableDescription where
  ItemCount : Nat
  KeySchema : List KeySchemaElement
  GlobalSecondaryIndexes : Option (List SecondaryIndexDescription)
  LocalSecondaryIndexes : Option (List SecondaryIndexDescription)

/-- The loop body of loadKeysFromSchema: one key-schema element updates
the partition or sort key by its role tag. -/
def loadKeysStep (ix : tableIndex) (keyElement : KeySchemaElement) :
    tableIndex :=
  if keyElement.KeyType = "HASH" then
    { ix with PartitionKey := keyElement.AttributeName }
  else if keyElement.KeyType = "RANGE" then
    { ix with SortKey := keyElement.AttributeName, IsComposite := true }
  else ix

/-- loadKeysFromSchema from tableindex.go: scan the key schema, recording
the HASH attribute as partition key and a RANGE attribute as sort key. -/
def tableIndex.loadKeysFromSchema (index : tableIndex)
    (keySchema : List KeySchemaElement) : tableIndex :=
  keySchema.foldl loadKeysStep { index with IsComposite := false }

/-- getKeys from tableindex.go. -/
def tableIndex.getKeys (index : tableIndex) : List String :=
  if index.IsComposite then [index.PartitionKey, index.SortKey]
  else [index.PartitionKey]

/-- loadAttributesFromProjection from tableindex.go: an ALL (or absent)
projection includes all attributes; otherwise the attribute set holds the
index's keys, the primary table's keys, and for INCLUDE projections the
declared extra attributes. -/
def tableIndex.loadAttributesFromProjection (index : tableIndex)
    (proj : Option Projection) (tablePrimaryIndexKeys : List String) :
    tableIndex :=
  match proj with
  | none => { index with IncludesAllAttributes := true }
  | some p =>
      if p.ProjectionType = "ALL" then
        { index with IncludesAllAttributes := true }
      else
        let keys := index.getKeys ++ tablePrimaryIndexKeys
        let attrs :=
          if p.ProjectionType = "INCLUDE" then keys ++ p.NonKeyAttributes
          else keys
        { index with IncludesAllAttributes := false,
                     AttributeSet := some attrs }

/-- Modelled from the spec: the revision of tableindex.go holding the
`inferSparseness` that client.go calls (it takes the primary index and a
threshold, and fills `Sparsity`, `SparsityMultiplier`,
`HasMaxSparsityMultiplier` and `IsSparse`) is absent from the sources;
only an older revision with an incompatible signature and the caller
`parseTableIndexMetadata` are present.  Per the spec: Sparsity is index
size divided by table size (zero for an empty table, matching the older
revision and the client.go doc comment on the threshold); the
SparsityMultiplier is its inverse, replaced by a maximal-value sentinel
plus flag when the index currently holds zero items; an index is never
classified sparse if its sort key equals the primary table's partition
key or sort key, and otherwise a composite index is sparse exactly when
its Sparsity is below the threshold (non-composite indexes are never
sparse). -/
def tableIndex.inferSparseness (index : tableIndex)
    (tablePrimaryIndex : tableIndex) (threshold : ℚ) : tableIndex :=
  let sparsity : ℚ :=
    if tablePrimaryIndex.Size = 0 then 0
    else (index.Size : ℚ) / (tablePrimaryIndex.Size : ℚ)
  let hasMax : Bool := index.Size = 0
  let sparsityMultiplier : ℚ :=
    if hasMax then maxFloat64 else 1 / sparsity
  let isSparse : Bool :=
    if ¬ index.IsComposite then false
    else if index.SortKey = tablePrimaryIndex.PartitionKey ∨
            index.SortKey = tablePrimaryIndex.SortKey then false
    else sparsity < threshold
  { index with Sparsity := sparsity,
               SparsityMultiplier := sparsityMultiplier,
               HasMaxSparsityMultiplier := hasMax,
               IsSparse := isSparse }

/-- A Go `tableIndex` struct literal: unmentioned fields take zero
values. -/
def emptyTableIndex : tableIndex :=
  { Name := "", PartitionKey := "", SortKey := "", IsComposite := false,
    AttributeSet := none, IncludesAllAttributes := false, Size := 0,
    ConsistentReadable := false, IsSparse := false, Sparsity := 0,
    SparsityMultiplier := 0, HasMaxSparsityMultiplier := false }

/-- The struct literal opening the GSI and LSI loop bodies of
`parseTableIndexMetadata`: name, item count, consistent-readability, and
for local secondary indexes an initial IsSparse of true (overwritten by
`inferSparseness`). -/
def secondaryIndexBase (desc : SecondaryIndexDescription)
    (consistentReadable : Bool) (initialIsSparse : Bool) : tableIndex :=
  { emptyTableIndex with
      Name := desc.IndexName, Size := desc.ItemCount,
      ConsistentReadable := consistentReadable,
      IsSparse := initialIsSparse }

/-- The secondary-index construction steps shared by the GSI and LSI loops
of `parseTableIndexMetadata`. -/
def buildSecondaryIndex (desc : SecondaryIndexDescription)
    (consistentReadable : Bool) (initialIsSparse : Bool)
    (tablePrimaryIndex : tableIndex) (threshold : ℚ) : tableIndex :=
  let index := secondaryIndexBase desc consistentReadable initialIsSparse
  let index := index.loadKeysFromSchema desc.KeySchema
  let index := index.loadAttributesFromProjection desc.Proj
                 tablePrimaryIndex.getKeys
  index.inferSparseness tablePrimaryIndex threshold

/-- The primary `tableIndex` built first by `parseTableIndexMetadata`
(client.go lines 117-128). -/
def tablePrimaryIndexOf (table : TableDescription) : tableIndex :=
  ({ emptyTableIndex with
       Name := tablePrimaryIndexName, Size := table.ItemCount,
       IncludesAllAttributes := true, ConsistentReadable := true,
       IsSparse := false, Sparsity := 1,
       SparsityMultiplier := 1 }).loadKeysFromSchema table.KeySchema

/-- parseTableIndexMetadata from client.go (lines 107-165): the primary
index first, then one index per global secondary descriptor, then one per
local secondary descriptor.  The threshold argument is the client's
SecondaryIndexSparsenessThreshold field. -/
def parseTableIndexMetadata (table : TableDescription) (threshold : ℚ) :
    List tableIndex :=
  let tablePrimaryIndex := tablePrimaryIndexOf table
  let gsis :=
    (table.GlobalSecondaryIndexes.getD []).map
      (fun gsi => buildSecondaryIndex gsi false false tablePrimaryIndex
                    threshold)
  let lsis :=
    (table.LocalSecondaryIndexes.getD []).map
      (fun lsi => buildSecondaryIndex lsi true true tablePrimaryIndex
                    threshold)
  tablePrimaryIndex :: (gsis ++ lsis)

/-- ErrParsingComplete from errors.go. -/
structure ErrParsingComplete where
  reason : String
deriving DecidableEq

/-- Parser from parser.go, holding the cursor state machine's fields.  The
continuation key (`exclusiveStartkey`, a nil-able attribute map in Go) is
an `Option κ`; items are already-decoded values of type `α` (decoding via
the external codec collaborator is out of scope).  The compiled query
input is not part of this state: the claims under test observe the
continuation key, page counter, buffer and cursor, and the query call is
abstracted as a page-fetch collaborator keyed by the continuation key. -/
structure Parser (κ α : Type) where
  maxPagesSpecified : Bool
  maxPages : Int
  currentPage : Int
  limitPerPageSpecified : Bool
  limitPerPage : Int
  exclusiveStartkey : Option κ
  bufferedItems : List α
  currentBufferIndex : Nat
deriving DecidableEq

/-- The parser NewQuery returns (client.go lines 80-87): all fields at
their Go zero values and an empty buffer. -/
def NewQueryParser (κ α : Type) : Parser κ α :=
  { maxPagesSpecified := false, maxPages := 0, currentPage := 0,
    limitPerPageSpecified := false, limitPerPage := 0,
    exclusiveStartkey := none, bufferedItems := [],
    currentBufferIndex := 0 }

/-- lastEvaluatedKeyIsEmpty from parser.go: nil or empty key map. -/
def Parser.lastEvaluatedKeyIsEmpty (p : Parser κ α) : Bool :=
  p.exclusiveStartkey.isNone

/-- allItemsParsed from parser.go (lines 132-134). -/
def Parser.allItemsParsed (p : Parser κ α) : Bool :=
  decide (p.currentPage > 0) && p.lastEvaluatedKeyIsEmpty

/-- maxPaginationReached from parser.go (lines 136-138). -/
def Parser.maxPaginationReached (p : Parser κ α) : Bool :=
  p.maxPagesSpecified && decide (p.currentPage ≥ p.maxPages)

/-- Parser.SetMaxPagination from parser.go. -/
def Parser.SetMaxPagination (p : Parser κ α) (maxPages : Int) : Parser κ α :=
  { p with maxPagesSpecified := true, maxPages := maxPages }

/-- Parser.UnsetMaxPagination from parser.go. -/
def Parser.UnsetMaxPagination (p : Parser κ α) : Parser κ α :=
  { p with maxPagesSpecified := false }

/-- Parser.SetExclusiveStartKey from parser.go. -/
def Parser.SetExclusiveStartKey (p : Parser κ α) (key : Option κ) :
    Parser κ α :=
  { p with exclusiveStartkey := key }

/-- Outcome of one Parser.Next call: a successfully pulled item, the
ErrParsingComplete sentinel, or a page-fetch error passed through
unmodified. -/
inductive NextResult (α ε : Type) where
  | item (a : α)
  | parsingComplete (e : ErrParsingComplete)
  | fetchError (e : ε)
deriving DecidableEq

/-- Parser.Next from parser.go (lines 51-82).  The buffer-refill `for`
loop is embedded by structural recursion on a fuel bound; `none` means
the fuel ran out (or the unreachable out-of-range buffer read).  The
page-fetch collaborator `fetch` abstracts the `QueryWithContext` call; it
receives the current continuation key, and on success yields the page's
items and the new continuation key.  State is mutated only after a
successful fetch, exactly as in the source. -/
def Next (fetch : Option κ → Except ε (List α × Option κ)) :
    Nat → Parser κ α → Option (NextResult α ε × Parser κ α)
  | 0, _ => none
  | fuel + 1, p =>
      if p.currentBufferIndex = p.bufferedItems.length then
        if p.allItemsParsed then
          some (.parsingComplete ⟨"all items have been parsed"⟩, p)
        else if p.maxPaginationReached then
          some (.parsingComplete ⟨"max pagination has been reached"⟩, p)
        else
          match fetch p.exclusiveStartkey with
          | .error e => some (.fetchError e, p)
          | .ok (items, lastEvaluatedKey) =>
              Next fetch fuel
                { p with exclusiveStartkey := lastEvaluatedKey,
                         currentPage := p.currentPage + 1,
                         bufferedItems := items,
                         currentBufferIndex := 0 }
      else
        match p.bufferedItems[p.currentBufferIndex]? with
        | some currentItem =>
            some (.item currentItem,
                  { p with currentBufferIndex := p.currentBufferIndex + 1 })
        | none => none

/-- Iterate `Next` a given number of times, collecting the results. -/
def runPulls (fetch : Option κ → Except ε (List α × Option κ)) (fuel : Nat)
    (p : Parser κ α) : Nat → List (NextResult α ε) × Parser κ α
  | 0 => ([], p)
  | n + 1 =>
      match Next fetch fuel p with
      | none => ([], p)
      | some (r, p') =>
          let rest := runPulls fetch fuel p' n
          (r :: rest.1, rest.2)

/-- The page-fetch collaborator of claim C5: a fixed data set served in
pages of size `P`.  The continuation key is the offset of the next page;
the key returned with the final page is empty. -/
def pagedFetch (data : List α) (P : Nat) (ε : Type) :
    Option Nat → Except ε (List α × Option Nat) :=
  fun key =>
    let k := key.getD 0
    .ok ((data.drop k).take P,
         if k + P < data.length then some (k + P) else none)

/-- The fields of a `dynamodb.QueryInput` that
`constructQueryInputGivenIndex` fills from the expression and the chosen
index. -/
structure QueryInput (V : Type) where
  KeyConditionExpression : KeyCond V
  FilterExpression : Option (ConditionExpr V)
  ProjectionExpression : Option (List String)
  IndexName : Option String
  ConsistentRead : Option Bool
  ScanIndexForward : Option Bool
deriving DecidableEq

/-- The sort-key `switch` of constructQueryInputGivenIndex: translate the
sort-key filter into the matching key-condition clause. -/
def sortKeyCondition (attr : String) : conditionFilter V → KeyCond V
  | .equalsFilter v => .keyEqual attr v
  | .lessThanFilter v => .keyLessThan attr v
  | .greaterThanFilter v => .keyGreaterThan attr v
  | .lessThanEqualFilter v => .keyLessThanEqual attr v
  | .greaterThanEqualFilter v => .keyGreaterThanEqual attr v
  | .betweenFilter lo hi => .keyBetween attr lo hi
  | .beginsWithFilter s => .keyBeginsWith attr s

/-- The generic-filter `switch` of constructQueryInputGivenIndex:
translate a remaining filter into a filter-condition clause. -/
def filterCondition (key : String) : conditionFilter V → ConditionExpr V
  | .equalsFilter v => .equalCond key v
  | .lessThanFilter v => .lessThanCond key v
  | .greaterThanFilter v => .greaterThanCond key v
  | .lessThanEqualFilter v => .lessThanEqualCond key v
  | .greaterThanEqualFilter v => .greaterThanEqualCond key v
  | .betweenFilter lo hi => .betweenCond key lo hi
  | .beginsWithFilter s => .beginsWithCond key s

/-- constructQueryInputGivenIndex from expression.go (lines 163-279).
Faults (`none`) exactly where the Go code panics: the `*equalsFilter`
type assertion on the partition-key filter, and the `names[0]` read when
Select was called but no attribute was ever selected.  The AWS expression
builder's own `Build` validation is an external collaborator and is not
re-modelled. -/
def Expression.constructQueryInputGivenIndex (expr : Expression V)
    (index : tableIndex) : Option (QueryInput V) :=
  let filters := expr.filters.getD []
  match expr.filterOn index.PartitionKey with
  | some (.equalsFilter v) =>
      let kce := KeyCond.keyEqual index.PartitionKey v
      let filters := mapDelete filters index.PartitionKey
      let afterSortKey :=
        if index.IsComposite then
          match mapLookup filters index.SortKey with
          | some f =>
              (KeyCond.keyAnd kce (sortKeyCondition index.SortKey f),
               mapDelete filters index.SortKey)
          | none => (kce, filters)
        else (kce, filters)
      let filterConditions :=
        (afterSortKey.2.map fun kf => filterCondition kf.1 kf.2) ++
          expr.additionalConditions
      let filterExpr : Option (ConditionExpr V) :=
        match filterConditions with
        | [] => none
        | [c] => some c
        | c1 :: c2 :: rest =>
            some (rest.foldl .andCond (ConditionExpr.andCond c1 c2))
      let projections : Option (Option (List String)) :=
        if expr.attributesSpecified then
          match expr.attributes with
          | [] => none
          | a :: rest => some (some (a :: rest))
        else some none
      match projections with
      | none => none
      | some proj =>
          some { KeyConditionExpression := afterSortKey.1,
                 FilterExpression := filterExpr,
                 ProjectionExpression := proj,
                 IndexName :=
                   if index.Name ≠ tablePrimaryIndexName then some index.Name
                   else none,
                 ConsistentRead :=
                   if expr.consistentRead then some true else none,
                 ScanIndexForward :=
                   if expr.orderSpecified then some expr.orderAscending
                   else none }
  | _ => none

/-! Concrete instances used as test inputs by counterexamples and
witnesses. -/

/-- A non-composite secondary index projecting all attributes. -/
def idxSimple : tableIndex :=
  { Name := "simple", PartitionKey := "pk", SortKey := "",
    IsComposite := false, AttributeSet := none,
    IncludesAllAttributes := true, Size := 3, ConsistentReadable := true,
    IsSparse := false, Sparsity := 1, SparsityMultiplier := 1,
    HasMaxSparsityMultiplier := false }

/-- A composite secondary index projecting all attributes. -/
def idxComposite : tableIndex :=
  { Name := "composite", PartitionKey := "pk", SortKey := "sk",
    IsComposite := true, AttributeSet := none,
    IncludesAllAttributes := true, Size := 3, ConsistentReadable := true,
    IsSparse := false, Sparsity := 1, SparsityMultiplier := 2,
    HasMaxSparsityMultiplier := false }

/-- An expression (with an initialized filters map) holding one Equal
condition on "pk". -/
def exprPkEqual : Expression Nat :=
  { filters := some [("pk", .equalsFilter 7)], attributesSpecified := false,
    attributes := [], orderSpecified := false, orderAttribute := "",
    orderAscending := false, consistentRead := false,
    additionalConditions := [] }

/-- An expression holding Equal conditions on "pk" and "sk". -/
def exprPkSkEqual : Expression Nat :=
  { filters := some [("pk", .equalsFilter 7), ("sk", .equalsFilter 8)],
    attributesSpecified := false, attributes := [], orderSpecified := false,
    orderAttribute := "", orderAscending := false, consistentRead := false,
    additionalConditions := [] }

/-- Like `exprPkEqual` but with Select called on an empty attribute
list. -/
def exprSelectEmpty : Expression Nat :=
  { exprPkEqual with attributesSpecified := true, attributes := [] }

/-- Like `exprPkEqual` but selecting the single attribute "title". -/
def exprSelectTitle : Expression Nat :=
  { exprPkEqual with attributesSpecified := true, attributes := ["title"] }

/-- A table descriptor with composite primary key (pk, sk) and one global
secondary index whose sort key equals the primary sort key "sk". -/
def tableMovies : TableDescription :=
  { ItemCount := 10,
    KeySchema := [{ AttributeName := "pk", KeyType := "HASH" },
                  { AttributeName := "sk", KeyType := "RANGE" }],
    GlobalSecondaryIndexes :=
      some [{ IndexName := "gsi", ItemCount := 10,
              KeySchema := [{ AttributeName := "g", KeyType := "HASH" },
                            { AttributeName := "sk", KeyType := "RANGE" }],
              Proj := some { ProjectionType := "ALL",
                             NonKeyAttributes := [] } }],
    LocalSecondaryIndexes := none }

/-- A page-fetch collaborator that always fails. -/
def fetchFail : Option Nat → Except String (List Nat × Option Nat) :=
  fun _ => .error "network failure"

/-- A parser mid-query: one page fetched, buffer drained, continuation key
present. -/
def parserMid : Parser Nat Nat :=
  { maxPagesSpecified := false, maxPages := 0, currentPage := 1,
    limitPerPageSpecified := false, limitPerPage := 0,
    exclusiveStartkey := some 2, bufferedItems := [10, 20],
    currentBufferIndex := 2 }

/-!  Theorems settling the claims. -/

/-- C4: every Expression created by NewExpression — including through the
Key entry point, whose ConditionKey methods delegate to the same
Expression methods — has a nil (uninitialized) filters map, so the first
call to any condition-adding method faults on the nil-map assignment
instead of recording the condition. -/
theorem C4_new_expression_faults (V : Type) :
    (NewExpression V).filters = none ∧
    (∀ attr (v : V), (NewExpression V).Equal attr v = none) ∧
    (∀ attr (v : V), (NewExpression V).LessThan attr v = none) ∧
    (∀ attr (v : V), (NewExpression V).GreaterThan attr v = none) ∧
    (∀ attr (v : V), (NewExpression V).LessThanEqual attr v = none) ∧
    (∀ attr (v : V), (NewExpression V).GreaterThanEqual attr v = none) ∧
    (∀ attr (lo hi : V), (NewExpression V).Between attr lo hi = none) ∧
    (∀ attr pfx, (NewExpression V).BeginsWith attr pfx = none) ∧
    (∀ attr, (Key V attr).expr = NewExpression V) ∧
    (∀ attr (v : V), (Key V attr).Equal v = (Key V attr).expr.Equal attr v) ∧
    (∀ attr (v : V), (Key V attr).Equal v = none) ∧
    (∀ attr (v : V), (Key V attr).LessThan v = none) ∧
    (∀ attr (lo hi : V), (Key V attr).Between lo hi = none) ∧
    (∀ attr pfx, (Key V attr).BeginsWith pfx = none) :=
  ⟨rfl, fun _ _ => rfl, fun _ _ => rfl, fun _ _ => rfl, fun _ _ => rfl,
   fun _ _ => rfl, fun _ _ _ => rfl, fun _ _ => rfl, fun _ => rfl,
   fun _ _ => rfl, fun _ _ => rfl, fun _ _ => rfl, fun _ _ _ => rfl,
   fun _ _ => rfl⟩

/-- C8, evaluated at the failing input: on an expression created by
NewExpression the first Equal call faults on the nil filters map, so the
Equal-then-LessThan sequence never reaches a state holding a LessThan
condition on the attribute; the overwrite behavior the claim (and the
method documentation) describes is unreachable from NewExpression. -/
theorem C8_overwrite_unreachable :
    (NewExpression Nat).Equal "attr" 1 = none ∧
    ((NewExpression Nat).Equal "attr" 1).bind
        (fun e => e.LessThan "attr" 2) = none :=
  ⟨rfl, rfl⟩

/-- Rule 1 produces no infraction exactly when the partition key carries
an equals filter. -/
theorem infractionPartitionKey_eq_nil (index : tableIndex)
    (expr : Expression V) :
    infractionPartitionKey index expr = [] ↔
      isEqualsFilter (expr.filterOn index.PartitionKey) = true := by
  unfold infractionPartitionKey
  split <;> simp_all

/-- Rule 2 produces no infraction exactly when consistent read, if
requested, is supported. -/
theorem infractionConsistentRead_eq_nil (index : tableIndex)
    (expr : Expression V) :
    infractionConsistentRead index expr = [] ↔
      (expr.consistentRead = true → index.ConsistentReadable = true) := by
  unfold infractionConsistentRead
  split <;> simp_all

/-- Rule 3 produces no infraction exactly when the ordering attribute, if
specified, is the index's sort key. -/
theorem infractionOrder_eq_nil (index : tableIndex) (expr : Expression V) :
    infractionOrder index expr = [] ↔
      (expr.orderSpecified = true → expr.orderAttribute = index.SortKey) := by
  unfold infractionOrder
  split <;> simp_all

/-- Rule 4 produces no infraction exactly when the projection covers the
selection (all attributes being required when Select was never
called). -/
theorem infractionProjection_eq_nil (index : tableIndex)
    (expr : Expression V) :
    infractionProjection index expr = [] ↔
      ((expr.attributesSpecified = true →
          index.IncludesAllAttributes = true ∨
            ∀ a ∈ expr.attributes,
              attributeSetHas index.AttributeSet a = true) ∧
       (expr.attributesSpecified = false →
          index.IncludesAllAttributes = true)) := by
  unfold infractionProjection
  split
  · split
    · split <;>
        simp_all [indexMissingAttrs, List.filter_eq_nil_iff]
    · simp_all
  · simp_all

/-- Rule 5 produces no infraction exactly when a sparse index's sort key
is filtered on or is the ordering attribute. -/
theorem infractionSparse_eq_nil (index : tableIndex) (expr : Expression V) :
    infractionSparse index expr = [] ↔
      (index.IsSparse = true →
        (expr.filterOn index.SortKey).isSome = true ∨
          expr.orderAttribute = index.SortKey) := by
  unfold infractionSparse
  split <;> cases hopt : expr.filterOn index.SortKey <;> simp_all

/-- C2: the viability-infraction list is empty exactly when the
partition-key filter is an Equal condition, consistent read (when
requested) is supported, the ordering attribute (when given) is the sort
key, the projection covers the selection (all attributes required when
Select was never called), and a sparse index's sort key is referenced by
a filter or as the ordering attribute; and each violated rule contributes
its reported reason to the list. -/
theorem C2_viability_infractions (V : Type) (index : tableIndex)
    (expr : Expression V) :
    (listIndexViabilityInfractions index expr = [] ↔
      (isEqualsFilter (expr.filterOn index.PartitionKey) = true ∧
       (expr.consistentRead = true → index.ConsistentReadable = true) ∧
       (expr.orderSpecified = true → expr.orderAttribute = index.SortKey) ∧
       (expr.attributesSpecified = true →
         index.IncludesAllAttributes = true ∨
           ∀ a ∈ expr.attributes,
             attributeSetHas index.AttributeSet a = true) ∧
       (expr.attributesSpecified = false →
         index.IncludesAllAttributes = true) ∧
       (index.IsSparse = true →
         (expr.filterOn index.SortKey).isSome = true ∨
           expr.orderAttribute = index.SortKey))) ∧
    (isEqualsFilter (expr.filterOn index.PartitionKey) ≠ true →
      ("expression does not contain an equals condition on attribute: " ++
          index.PartitionKey) ∈ listIndexViabilityInfractions index expr) ∧
    (expr.consistentRead = true → index.ConsistentReadable = false →
      "global secondary index does not support consistent read" ∈
        listIndexViabilityInfractions index expr) ∧
    (expr.orderSpecified = true → expr.orderAttribute ≠ index.SortKey →
      ("expression specifies order, so it requires an index with sort key: " ++
          expr.orderAttribute) ∈ listIndexViabilityInfractions index expr) ∧
    (index.IncludesAllAttributes = false → expr.attributesSpecified = true →
      expr.attributes.filter
          (fun a => !attributeSetHas index.AttributeSet a) ≠ [] →
      ("index does not include attributes: " ++
          String.intercalate ", "
            (expr.attributes.filter
              (fun a => !attributeSetHas index.AttributeSet a))) ∈
        listIndexViabilityInfractions index expr) ∧
    (index.IncludesAllAttributes = false → expr.attributesSpecified = false →
      "expression does not select attributes, so it requires an index that projects all" ∈
        listIndexViabilityInfractions index expr) ∧
    (index.IsSparse = true → expr.filterOn index.SortKey = none →
      expr.orderAttribute ≠ index.SortKey →
      ("expression does not filter on sparse secondary index's sort key: " ++
          index.SortKey) ∈ listIndexViabilityInfractions index expr) := by
  refine ⟨?_, ?_, ?_, ?_, ?_, ?_, ?_⟩
  · rw [listIndexViabilityInfractions, List.append_eq_nil,
      List.append_eq_nil, List.append_eq_nil, List.append_eq_nil,
      infractionPartitionKey_eq_nil, infractionConsistentRead_eq_nil,
      infractionOrder_eq_nil, infractionProjection_eq_nil,
      infractionSparse_eq_nil]
    tauto
  · intro h
    simp [listIndexViabilityInfractions, infractionPartitionKey, h]
  · intro h1 h2
    simp [listIndexViabilityInfractions, infractionConsistentRead, h1, h2]
  · intro h1 h2
    simp [listIndexViabilityInfractions, infractionOrder, h1, h2]
  · intro h1 h2 h3
    simp [listIndexViabilityInfractions, infractionProjection,
      indexMissingAttrs, h1, h2] at h3 ⊢
    simp [h3]
  · intro h1 h2
    simp [listIndexViabilityInfractions, infractionProjection, h1, h2]
  · intro h1 h2 h3
    simp [listIndexViabilityInfractions, infractionSparse, h1, h2, h3]

/-- C3 counterexample: a viable non-composite index with ordinary
sparsity multiplier 1 is scored 1/5 (the nil-interface entry of the
multiplier map also catches non-composite indexes), not the 1.0 the claim
assigns to non-composite indexes. -/
theorem C3_counterexample :
    listIndexViabilityInfractions idxSimple exprPkEqual = [] ∧
    idxSimple.IsComposite = false ∧
    idxSimple.HasMaxSparsityMultiplier = false ∧
    idxSimple.SparsityMultiplier = 1 ∧
    indexScore idxSimple exprPkEqual = 1 / 5 ∧
    idxSimple.SparsityMultiplier * 1 ≠ indexScore idxSimple exprPkEqual := by
  have hv : listIndexViabilityInfractions idxSimple exprPkEqual = [] := by
    decide
  have hs : indexScore idxSimple exprPkEqual = 1 / 5 := by
    unfold indexScore scoreIndexOnExpr
    simp only [hv]
    norm_num [idxSimple]
  refine ⟨hv, rfl, rfl, rfl, hs, ?_⟩
  rw [hs]
  norm_num [idxSimple]

/-- C3 as amended: for a viable (index, expression) pair, the score is the
maximal float value when the zero-item flag is set; otherwise it is
SparsityMultiplier times 2.5 for an Equal filter on a composite index's
sort key, 1.8 for Between, 1.5 for BeginsWith, 0.2 when no filter is
present on the sort key or the index is non-composite, and 1.0 for any
other filter kind on a composite index's sort key. -/
theorem C3_amended_score (V : Type) (index : tableIndex) (expr : Expression V)
    (hviable : listIndexViabilityInfractions index expr = []) :
    (index.HasMaxSparsityMultiplier = true →
       indexScore index expr = maxFloat64) ∧
    (index.HasMaxSparsityMultiplier = false →
       ((∀ v, index.IsComposite = true →
            expr.filterOn index.SortKey = some (.equalsFilter v) →
            indexScore index expr = index.SparsityMultiplier * (5 / 2)) ∧
        (∀ lo hi, index.IsComposite = true →
            expr.filterOn index.SortKey = some (.betweenFilter lo hi) →
            indexScore index expr = index.SparsityMultiplier * (9 / 5)) ∧
        (∀ s, index.IsComposite = true →
            expr.filterOn index.SortKey = some (.beginsWithFilter s) →
            indexScore index expr = index.SparsityMultiplier * (3 / 2)) ∧
        (index.IsComposite = true → expr.filterOn index.SortKey = none →
            indexScore index expr = index.SparsityMultiplier * (1 / 5)) ∧
        (index.IsComposite = false →
            indexScore index expr = index.SparsityMultiplier * (1 / 5)) ∧
        (∀ v, index.IsComposite = true →
            expr.filterOn index.SortKey = some (.lessThanFilter v) →
            indexScore index expr = index.SparsityMultiplier * 1) ∧
        (∀ v, index.IsComposite = true →
            expr.filterOn index.SortKey = some (.greaterThanFilter v) →
            indexScore index expr = index.SparsityMultiplier * 1) ∧
        (∀ v, index.IsComposite = true →
            expr.filterOn index.SortKey = some (.lessThanEqualFilter v) →
            indexScore index expr = index.SparsityMultiplier * 1) ∧
        (∀ v, index.IsComposite = true →
            expr.filterOn index.SortKey = some (.greaterThanEqualFilter v) →
            indexScore index expr = index.SparsityMultiplier * 1))) := by
  unfold indexScore scoreIndexOnExpr
  rw [hviable]
  constructor
  · intro hmax
    simp [hmax]
  · intro hmax
    refine ⟨?_, ?_, ?_, ?_, ?_, ?_, ?_, ?_, ?_⟩ <;>
      first
        | (intro v hcomp hfilt; simp [hmax, hcomp, hfilt])
        | (intro lo hi hcomp hfilt; simp [hmax, hcomp, hfilt])
        | (intro hcomp hfilt; simp [hmax, hcomp, hfilt])
        | (intro hcomp; simp [hmax, hcomp])

/-- Witness for C3_amended_score: a viable composite index with an Equal
filter on its sort key scores SparsityMultiplier times 2.5. -/
theorem C3_amended_score_witness :
    indexScore idxComposite exprPkSkEqual =
      idxComposite.SparsityMultiplier * (5 / 2) :=
  ((C3_amended_score Nat idxComposite exprPkSkEqual (by decide)).2
      (by decide)).1 8 (by decide) (by decide)

/-- C9: a successfully compiled request carries an index identifier
exactly when the chosen index is not the primary index; the identifier,
when present, is the chosen index's name. -/
theorem C9_index_identifier (V : Type) (expr : Expression V)
    (index : tableIndex) (q : QueryInput V)
    (h : expr.constructQueryInputGivenIndex index = some q) :
    (q.IndexName ≠ none ↔ index.Name ≠ tablePrimaryIndexName) ∧
    (index.Name ≠ tablePrimaryIndexName → q.IndexName = some index.Name) ∧
    (index.Name = tablePrimaryIndexName → q.IndexName = none) := by
  have hq : q.IndexName =
      if index.Name ≠ tablePrimaryIndexName then some index.Name
      else none := by
    unfold Expression.constructQueryInputGivenIndex at h
    split at h
    · dsimp only at h
      split at h
      · exact absurd h (by simp)
      · injection h with h
        subst h
        rfl
    · exact absurd h (by simp)
  by_cases hname : index.Name = tablePrimaryIndexName <;>
    simp [hq, hname]

/-- Witness for C9_index_identifier: compiling against the non-primary
index "composite" sets the identifier to "composite". -/
theorem C9_index_identifier_witness :
    ∃ q : QueryInput Nat,
      exprPkEqual.constructQueryInputGivenIndex idxComposite = some q ∧
        q.IndexName = some "composite" := by
  refine ⟨_, rfl, ?_⟩
  exact (C9_index_identifier Nat exprPkEqual idxComposite _ rfl).2.1
    (by decide)

/-- C10: with a valid partition-key filter, compiling an expression on
which Select was called with an empty accumulated attribute list faults
on the empty name-list indexing, while a nonempty selection compiles and
its projection clause lists exactly the selected attributes. -/
theorem C10_projection_clause (V : Type) (expr : Expression V)
    (index : tableIndex) (v : V)
    (hpk : expr.filterOn index.PartitionKey = some (.equalsFilter v)) :
    (expr.attributesSpecified = true → expr.attributes = [] →
      expr.constructQueryInputGivenIndex index = none) ∧
    (expr.attributesSpecified = true → expr.attributes ≠ [] →
      ∃ q, expr.constructQueryInputGivenIndex index = some q ∧
        q.ProjectionExpression = some expr.attributes) := by
  unfold Expression.constructQueryInputGivenIndex
  rw [hpk]
  constructor
  · intro ha he
    simp [ha, he]
  · intro ha hne
    cases hattr : expr.attributes with
    | nil => exact absurd hattr hne
    | cons a rest =>
        simp only [ha, hattr]
        exact ⟨_, rfl, rfl⟩

/-- Witness for C10_projection_clause: Select with no attributes faults;
selecting "title" yields a projection clause of exactly "title". -/
theorem C10_projection_clause_witness :
    exprSelectEmpty.constructQueryInputGivenIndex idxSimple = none ∧
    ∃ q, exprSelectTitle.constructQueryInputGivenIndex idxSimple = some q ∧
      q.ProjectionExpression = some ["title"] := by
  constructor
  · exact (C10_projection_clause Nat exprSelectEmpty idxSimple 7
      (by decide)).1 rfl rfl
  · exact (C10_projection_clause Nat exprSelectTitle idxSimple 7
      (by decide)).2 rfl (by simp [exprSelectTitle])

/-- A viable index's score report: no error, and the score component is
`indexScore`. -/
theorem scoreIndexOnExpr_of_viable (index : tableIndex) (expr : Expression V)
    (h : listIndexViabilityInfractions index expr = []) :
    scoreIndexOnExpr index expr = (indexScore index expr, none) := by
  have h2 : (scoreIndexOnExpr index expr).2 = none := by
    unfold scoreIndexOnExpr
    simp only [h]
    norm_num
    split <;> rfl
  rw [← h2]
  unfold indexScore
  exact Prod.mk.eta.symm

/-- A non-viable index's score report: score zero and an error naming the
index with its infractions. -/
theorem scoreIndexOnExpr_of_inviable (index : tableIndex)
    (expr : Expression V)
    (h : listIndexViabilityInfractions index expr ≠ []) :
    scoreIndexOnExpr index expr =
      (0, some { IndexName := index.Name,
                 NotViableReasons :=
                   listIndexViabilityInfractions index expr }) := by
  unfold scoreIndexOnExpr
  rw [if_pos]
  exact List.length_pos.2 h

/-- Invariant of the chooseIndex loop: if the carried best index is viable
with the carried best score, then the final best index is viable with the
final best score, the best score never decreases, and the final best
score bounds every viable index of the remaining list. -/
theorem chooseIndexLoop_invariant (V : Type) (expr : Expression V) :
    ∀ (l : List tableIndex) (b : Option tableIndex) (s : ℚ)
      (errs : List ErrIndexNotViable),
      (∀ i, b = some i →
        listIndexViabilityInfractions i expr = [] ∧ indexScore i expr = s) →
      (∀ i, (chooseIndexLoop expr l b s errs).1 = some i →
          listIndexViabilityInfractions i expr = [] ∧
          indexScore i expr = (chooseIndexLoop expr l b s errs).2.1) ∧
      s ≤ (chooseIndexLoop expr l b s errs).2.1 ∧
      (∀ j ∈ l, listIndexViabilityInfractions j expr = [] →
          indexScore j expr ≤ (chooseIndexLoop expr l b s errs).2.1) := by
  intro l
  induction l with
  | nil =>
      intro b s errs hb
      exact ⟨hb, le_refl s, by simp⟩
  | cons i rest ih =>
      intro b s errs hb
      by_cases hv : listIndexViabilityInfractions i expr = []
      · have hstep : chooseIndexLoop expr (i :: rest) b s errs =
            if indexScore i expr > s then
              chooseIndexLoop expr rest (some i) (indexScore i expr) errs
            else chooseIndexLoop expr rest b s errs := by
          rw [chooseIndexLoop, scoreIndexOnExpr_of_viable i expr hv]
        rw [hstep]
        by_cases hgt : indexScore i expr > s
        · rw [if_pos hgt]
          have h := ih (some i) (indexScore i expr) errs
            (fun i' hi' => by cases hi'; exact ⟨hv, rfl⟩)
          refine ⟨h.1, le_trans (le_of_lt hgt) h.2.1, ?_⟩
          intro j hj hvj
          rcases List.mem_cons.1 hj with hj | hj
          · subst hj
            exact h.2.1
          · exact h.2.2 j hj hvj
        · rw [if_neg hgt]
          have h := ih b s errs hb
          refine ⟨h.1, h.2.1, ?_⟩
          intro j hj hvj
          rcases List.mem_cons.1 hj with hj | hj
          · subst hj
            exact le_trans (le_of_not_lt hgt) h.2.1
          · exact h.2.2 j hj hvj
      · have hstep : chooseIndexLoop expr (i :: rest) b s errs =
            chooseIndexLoop expr rest b s
              (errs ++ [(⟨i.Name,
                listIndexViabilityInfractions i expr⟩ : ErrIndexNotViable)]) := by
          rw [chooseIndexLoop, scoreIndexOnExpr_of_inviable i expr hv]
        rw [hstep]
        have h := ih b s (errs ++ [(⟨i.Name,
          listIndexViabilityInfractions i expr⟩ : ErrIndexNotViable)]) hb
        refine ⟨h.1, h.2.1, ?_⟩
        intro j hj hvj
        rcases List.mem_cons.1 hj with hj | hj
        · subst hj
          exact absurd hvj hv
        · exact h.2.2 j hj hvj

/-- When every index of the list is non-viable, the chooseIndex loop
leaves the best index and score untouched and appends one infraction
report per index, in order. -/
theorem chooseIndexLoop_all_inviable (V : Type) (expr : Expression V) :
    ∀ (l : List tableIndex) (b : Option tableIndex) (s : ℚ)
      (errs : List ErrIndexNotViable),
      (∀ j ∈ l, listIndexViabilityInfractions j expr ≠ []) →
      chooseIndexLoop expr l b s errs =
        (b, s, errs ++ l.map (fun j =>
          { IndexName := j.Name,
            NotViableReasons := listIndexViabilityInfractions j expr })) := by
  intro l
  induction l with
  | nil =>
      intro b s errs _
      simp [chooseIndexLoop]
  | cons i rest ih =>
      intro b s errs h
      have hstep : chooseIndexLoop expr (i :: rest) b s errs =
          chooseIndexLoop expr rest b s
            (errs ++ [(⟨i.Name,
              listIndexViabilityInfractions i expr⟩ : ErrIndexNotViable)]) := by
        rw [chooseIndexLoop,
          scoreIndexOnExpr_of_inviable i expr (h i (List.mem_cons_self i rest))]
      rw [hstep, ih _ _ _ (fun j hj => h j (List.mem_cons_of_mem i hj))]
      simp

/-- C1: when chooseIndex returns an index, that index has no viability
infractions and no other viable index in the catalog scores strictly
higher; when every index has infractions, chooseIndex fails with an
ErrNoViableIndexes carrying one infraction report per index. -/
theorem C1_chooseIndex (V : Type) (indexes : List tableIndex)
    (expr : Expression V) :
    (∀ i, chooseIndex indexes expr = .ok i →
       listIndexViabilityInfractions i expr = [] ∧
       ∀ j ∈ indexes, listIndexViabilityInfractions j expr = [] →
         ¬ indexScore i expr < indexScore j expr) ∧
    ((∀ j ∈ indexes, listIndexViabilityInfractions j expr ≠ []) →
       chooseIndex indexes expr =
         .error { IndexErrs := indexes.map (fun j =>
             { IndexName := j.Name,
               NotViableReasons :=
                 listIndexViabilityInfractions j expr }) }) := by
  constructor
  · intro i hok
    have hinv := chooseIndexLoop_invariant V expr indexes none 0 []
      (fun i' hi' => by cases hi')
    unfold chooseIndex at hok
    rcases hsplit : chooseIndexLoop expr indexes none 0 [] with ⟨bo, sc, es⟩
    rw [hsplit] at hok hinv
    cases bo with
    | none => exact absurd hok (by simp)
    | some bi =>
        simp only [Except.ok.injEq] at hok
        subst hok
        have hbi := hinv.1 bi rfl
        refine ⟨hbi.1, ?_⟩
        intro j hj hvj
        rw [hbi.2]
        exact not_lt.2 (hinv.2.2 j hj hvj)
  · intro h
    unfold chooseIndex
    rw [chooseIndexLoop_all_inviable V expr indexes none 0 [] h]
    simp

/-- Witness for C1_chooseIndex: the ok branch on a one-index viable
catalog, and the error branch on the same catalog with an expression
missing the partition-key condition. -/
theorem C1_chooseIndex_witness :
    (listIndexViabilityInfractions idxSimple exprPkEqual = [] ∧
      ¬ indexScore idxSimple exprPkEqual < indexScore idxSimple exprPkEqual) ∧
    chooseIndex [idxSimple] (NewExpression Nat) =
      .error ⟨[⟨"simple",
        ["expression does not contain an equals condition on attribute: pk"]⟩]⟩ := by
  have hv : listIndexViabilityInfractions idxSimple exprPkEqual = [] := by
    decide
  have hpair : scoreIndexOnExpr idxSimple exprPkEqual = (1 / 5, none) := by
    unfold scoreIndexOnExpr
    simp only [hv]
    norm_num [idxSimple]
  have hloop : chooseIndexLoop exprPkEqual [idxSimple] none (0 : ℚ) [] =
      (some idxSimple, 1 / 5, []) := by
    rw [chooseIndexLoop, hpair]
    show (if (1 : ℚ) / 5 > 0 then
            chooseIndexLoop exprPkEqual [] (some idxSimple) (1 / 5) []
          else chooseIndexLoop exprPkEqual [] none 0 []) =
        (some idxSimple, 1 / 5, [])
    rw [if_pos (by norm_num)]
    rfl
  have hok : chooseIndex [idxSimple] exprPkEqual = .ok idxSimple := by
    unfold chooseIndex
    rw [hloop]
  constructor
  · have h := (C1_chooseIndex Nat [idxSimple] exprPkEqual).1 idxSimple hok
    exact ⟨h.1, h.2 idxSimple (List.mem_singleton.2 rfl) h.1⟩
  · exact (C1_chooseIndex Nat [idxSimple] (NewExpression Nat)).2 (by decide)

/-- Witness for C2_viability_infractions: an expression with no filters is
reported for the missing equals condition on "pk". -/
theorem C2_viability_infractions_witness :
    ("expression does not contain an equals condition on attribute: " ++
        "pk") ∈ listIndexViabilityInfractions idxSimple (NewExpression Nat) :=
  (C2_viability_infractions Nat idxSimple (NewExpression Nat)).2.1
    (by decide)

/-- The loadKeysFromSchema loop body touches only the key fields. -/
theorem loadKeysStep_preserves (ix : tableIndex) (ke : KeySchemaElement) :
    (loadKeysStep ix ke).Name = ix.Name ∧
    (loadKeysStep ix ke).Size = ix.Size ∧
    (loadKeysStep ix ke).IsSparse = ix.IsSparse := by
  unfold loadKeysStep
  split_ifs <;> exact ⟨rfl, rfl, rfl⟩

/-- Folding the loadKeysFromSchema loop preserves name, size and
sparseness. -/
theorem foldl_loadKeysStep_preserves :
    ∀ (ks : List KeySchemaElement) (ix : tableIndex),
      ((ks.foldl loadKeysStep ix).Name = ix.Name) ∧
      ((ks.foldl loadKeysStep ix).Size = ix.Size) ∧
      ((ks.foldl loadKeysStep ix).IsSparse = ix.IsSparse) := by
  intro ks
  induction ks with
  | nil => exact fun ix => ⟨rfl, rfl, rfl⟩
  | cons ke rest ih =>
      intro ix
      have h1 := loadKeysStep_preserves ix ke
      have h2 := ih (loadKeysStep ix ke)
      simp only [List.foldl_cons]
      exact ⟨h2.1.trans h1.1, h2.2.1.trans h1.2.1, h2.2.2.trans h1.2.2⟩

/-- loadKeysFromSchema preserves name, size and sparseness. -/
theorem loadKeysFromSchema_preserves (ix : tableIndex)
    (ks : List KeySchemaElement) :
    ((ix.loadKeysFromSchema ks).Name = ix.Name) ∧
    ((ix.loadKeysFromSchema ks).Size = ix.Size) ∧
    ((ix.loadKeysFromSchema ks).IsSparse = ix.IsSparse) :=
  foldl_loadKeysStep_preserves ks { ix with IsComposite := false }

/-- loadAttributesFromProjection touches only the projection fields. -/
theorem loadAttributesFromProjection_preserves (ix : tableIndex)
    (proj : Option Projection) (keys : List String) :
    ((ix.loadAttributesFromProjection proj keys).IsComposite =
      ix.IsComposite) ∧
    ((ix.loadAttributesFromProjection proj keys).SortKey = ix.SortKey) ∧
    ((ix.loadAttributesFromProjection proj keys).Size = ix.Size) := by
  unfold tableIndex.loadAttributesFromProjection
  cases proj with
  | none => exact ⟨rfl, rfl, rfl⟩
  | some p =>
      dsimp only
      split_ifs <;> exact ⟨rfl, rfl, rfl⟩

/-- inferSparseness computes IsSparse from fields it leaves unchanged, so
the classification can be read off the resulting index itself. -/
theorem inferSparseness_sparse_out (i P : tableIndex) (t : ℚ) :
    (i.inferSparseness P t).IsSparse =
      (if ¬ (i.inferSparseness P t).IsComposite = true then false
       else if (i.inferSparseness P t).SortKey = P.PartitionKey ∨
               (i.inferSparseness P t).SortKey = P.SortKey then false
       else
         decide ((if P.Size = 0 then (0 : ℚ)
                  else ((i.inferSparseness P t).Size : ℚ) / (P.Size : ℚ)) <
           t)) :=
  rfl

/-- A secondary index built by parseTableIndexMetadata keeps its
descriptor's item count. -/
theorem buildSecondaryIndex_Size (desc : SecondaryIndexDescription)
    (cr isp : Bool) (P : tableIndex) (t : ℚ) :
    (buildSecondaryIndex desc cr isp P t).Size = desc.ItemCount := by
  have h2 := loadAttributesFromProjection_preserves
    ((secondaryIndexBase desc cr isp).loadKeysFromSchema desc.KeySchema)
    desc.Proj P.getKeys
  have h3 := loadKeysFromSchema_preserves (secondaryIndexBase desc cr isp)
    desc.KeySchema
  exact h2.2.2.trans h3.2.1

/-- The sparseness classification of a built secondary index, in terms of
its own fields. -/
theorem buildSecondaryIndex_IsSparse (desc : SecondaryIndexDescription)
    (cr isp : Bool) (P : tableIndex) (t : ℚ) :
    (buildSecondaryIndex desc cr isp P t).IsSparse =
      (if ¬ (buildSecondaryIndex desc cr isp P t).IsComposite = true then
        false
       else if (buildSecondaryIndex desc cr isp P t).SortKey =
                 P.PartitionKey ∨
               (buildSecondaryIndex desc cr isp P t).SortKey = P.SortKey then
         false
       else
         decide ((if P.Size = 0 then (0 : ℚ)
                  else ((buildSecondaryIndex desc cr isp P t).Size : ℚ) /
                    (P.Size : ℚ)) < t)) :=
  inferSparseness_sparse_out _ P t

/-- The primary index of a parsed catalog keeps the table's item count,
the sentinel name, and the non-sparse flag. -/
theorem tablePrimaryIndexOf_fields (table : TableDescription) :
    (tablePrimaryIndexOf table).Name = tablePrimaryIndexName ∧
    (tablePrimaryIndexOf table).Size = table.ItemCount ∧
    (tablePrimaryIndexOf table).IsSparse = false :=
  loadKeysFromSchema_preserves _ table.KeySchema

/-- Catalog membership: the head is the primary index and every tail
element is a built secondary index. -/
theorem mem_parseTableIndexMetadata (table : TableDescription) (t : ℚ) :
    parseTableIndexMetadata table t =
      tablePrimaryIndexOf table :: (parseTableIndexMetadata table t).tail ∧
    ∀ i ∈ (parseTableIndexMetadata table t).tail,
      ∃ desc cr isp,
        i = buildSecondaryIndex desc cr isp (tablePrimaryIndexOf table) t := by
  constructor
  · rfl
  · intro i hi
    simp only [parseTableIndexMetadata, List.tail_cons, List.mem_append,
      List.mem_map] at hi
    rcases hi with ⟨d, _, rfl⟩ | ⟨d, _, rfl⟩
    · exact ⟨d, false, false, rfl⟩
    · exact ⟨d, true, true, rfl⟩

/-- C6 counterexample: with threshold 2 (greater than 1), the catalog of
`tableMovies` holds a composite secondary index ("gsi", whose sort key
equals the primary sort key) with IsSparse = false, against the claim
that a threshold above 1 makes every composite secondary index sparse. -/
theorem C6_counterexample :
    (1 : ℚ) < 2 ∧
    ∃ i ∈ (parseTableIndexMetadata tableMovies 2).tail,
      i.Name = "gsi" ∧ i.IsComposite = true ∧ i.IsSparse = false := by
  refine ⟨by norm_num, ?_⟩
  decide

/-- C6 as amended: in a catalog built with threshold t, threshold at most
0 makes every index non-sparse; threshold above 1 makes every composite
secondary index sparse provided its sort key differs from the primary
table's partition and sort keys and its item count does not exceed the
table's; a secondary index whose sort key equals the primary table's
partition key or sort key is never sparse; non-composite secondary
indexes are never sparse; and the catalog's head is the primary index,
which is never sparse. -/
theorem C6_amended_sparseness (table : TableDescription) (t : ℚ) :
    (t ≤ 0 → ∀ i ∈ parseTableIndexMetadata table t, i.IsSparse = false) ∧
    (1 < t → ∀ i ∈ (parseTableIndexMetadata table t).tail,
        i.IsComposite = true →
        i.SortKey ≠ (tablePrimaryIndexOf table).PartitionKey →
        i.SortKey ≠ (tablePrimaryIndexOf table).SortKey →
        i.Size ≤ table.ItemCount → i.IsSparse = true) ∧
    (∀ i ∈ (parseTableIndexMetadata table t).tail,
        (i.SortKey = (tablePrimaryIndexOf table).PartitionKey ∨
          i.SortKey = (tablePrimaryIndexOf table).SortKey) →
        i.IsSparse = false) ∧
    (∀ i ∈ (parseTableIndexMetadata table t).tail,
        i.IsComposite = false → i.IsSparse = false) ∧
    ((parseTableIndexMetadata table t).head? =
        some (tablePrimaryIndexOf table) ∧
      (tablePrimaryIndexOf table).IsSparse = false) := by
  have hmem := mem_parseTableIndexMetadata table t
  have hP := tablePrimaryIndexOf_fields table
  refine ⟨?_, ?_, ?_, ?_, rfl, hP.2.2⟩
  · intro ht i hi
    rw [hmem.1] at hi
    rcases List.mem_cons.1 hi with hi | hi
    · rw [hi]
      exact hP.2.2
    · obtain ⟨desc, cr, isp, rfl⟩ := hmem.2 i hi
      rw [buildSecondaryIndex_IsSparse]
      split_ifs <;>
        first
          | rfl
          | exact decide_eq_false (not_lt.2 ht)
          | exact decide_eq_false (not_lt.2 (le_trans ht
              (div_nonneg (Nat.cast_nonneg _) (Nat.cast_nonneg _))))
  · intro ht i hi hcomp hne1 hne2 hsize
    obtain ⟨desc, cr, isp, rfl⟩ := hmem.2 i hi
    rw [buildSecondaryIndex_IsSparse]
    rw [if_neg (by simp [hcomp]), if_neg (by simp [hne1, hne2])]
    refine decide_eq_true ?_
    split_ifs with h0
    · exact lt_trans zero_lt_one ht
    · refine lt_of_le_of_lt ?_ ht
      rw [div_le_one]
      · rw [← hP.2.1] at hsize
        exact_mod_cast hsize
      · exact_mod_cast Nat.pos_of_ne_zero h0
  · intro i hi hkey
    obtain ⟨desc, cr, isp, rfl⟩ := hmem.2 i hi
    rw [buildSecondaryIndex_IsSparse]
    split_ifs <;> rfl
  · intro i hi hcomp
    obtain ⟨desc, cr, isp, rfl⟩ := hmem.2 i hi
    rw [buildSecondaryIndex_IsSparse]
    rw [if_pos (by simp [hcomp])]

/-- Witness for C6_amended_sparseness: with threshold 0, the primary index
of the movies catalog is classified non-sparse. -/
theorem C6_amended_sparseness_witness :
    (tablePrimaryIndexOf tableMovies).IsSparse = false :=
  (C6_amended_sparseness tableMovies 0).1 le_rfl
    (tablePrimaryIndexOf tableMovies) (List.mem_cons_self _ _)

/-- C7: when the page fetch fails, Next returns the error unmodified and
the parser state — continuation key, page counter, buffer and cursor
included — is exactly as before the fetch, so a subsequent Next performs
the same fetch again and is affected the same way. -/
theorem C7_fetch_error_state (κ α ε : Type)
    (fetch : Option κ → Except ε (List α × Option κ)) (p : Parser κ α)
    (e : ε) (fuel : Nat)
    (hbuf : p.currentBufferIndex = p.bufferedItems.length)
    (h1 : p.allItemsParsed = false)
    (h2 : p.maxPaginationReached = false)
    (hfetch : fetch p.exclusiveStartkey = .error e) :
    Next fetch (fuel + 1) p = some (.fetchError e, p) ∧
    ∀ q : Parser κ α, Next fetch (fuel + 1) p = some (.fetchError e, q) →
      Next fetch (fuel + 1) q = some (.fetchError e, q) := by
  have hnext : Next fetch (fuel + 1) p = some (.fetchError e, p) := by
    unfold Next
    rw [if_pos hbuf, if_neg (by simp [h1]), if_neg (by simp [h2]), hfetch]
  refine ⟨hnext, ?_⟩
  intro q hq
  rw [hnext] at hq
  have hpq : p = q := by
    injection hq with hq
    exact congrArg Prod.snd hq
  rw [← hpq]
  exact hnext

/-- Witness for C7_fetch_error_state: a failing fetch on a mid-query
parser returns the error and the untouched state. -/
theorem C7_fetch_error_state_witness :
    Next fetchFail 2 parserMid =
      some (.fetchError "network failure", parserMid) :=
  (C7_fetch_error_state Nat Nat String fetchFail parserMid
    "network failure" 1 rfl rfl rfl rfl).1

/-- A Next call on a parser with unread buffered items returns the item at
the cursor and only advances the cursor. -/
theorem Next_buffer_item (fetch : Option κ → Except ε (List α × Option κ))
    (fuel : Nat) (p : Parser κ α)
    (h : p.currentBufferIndex < p.bufferedItems.length) :
    Next fetch (fuel + 1) p =
      some (.item p.bufferedItems[p.currentBufferIndex],
            { p with currentBufferIndex := p.currentBufferIndex + 1 }) := by
  unfold Next
  rw [if_neg (Nat.ne_of_lt h), List.getElem?_eq_getElem h]

/-- Draining the buffer: with d unread items buffered, the next d pulls
return them in order without fetching, leaving the exhausted-buffer
state. -/
theorem runPulls_drain (fetch : Option κ → Except ε (List α × Option κ))
    (fuel : Nat) :
    ∀ (d m : Nat) (p : Parser κ α),
      p.bufferedItems.length - p.currentBufferIndex = d →
      p.currentBufferIndex ≤ p.bufferedItems.length →
      runPulls fetch (fuel + 1) p (d + m) =
        (((p.bufferedItems.drop p.currentBufferIndex).map .item) ++
            (runPulls fetch (fuel + 1)
              { p with currentBufferIndex := p.bufferedItems.length } m).1,
         (runPulls fetch (fuel + 1)
            { p with currentBufferIndex := p.bufferedItems.length } m).2) := by
  intro d
  induction d with
  | zero =>
      intro m p hd hle
      have hc : p.currentBufferIndex = p.bufferedItems.length :=
        le_antisymm hle (by omega)
      have hp : { p with currentBufferIndex := p.bufferedItems.length } = p := by
        rw [← hc]
      rw [hp, Nat.zero_add, hc, List.drop_length]
      rfl
  | succ d ih =>
      intro m p hd hle
      have hlt : p.currentBufferIndex < p.bufferedItems.length := by omega
      have hstep := ih m { p with currentBufferIndex := p.currentBufferIndex + 1 }
        (by simp; omega) (by simp; omega)
      rw [show d + 1 + m = (d + m) + 1 from by omega, runPulls,
        Next_buffer_item fetch fuel p hlt]
      dsimp only
      rw [hstep, List.drop_eq_getElem_cons hlt]
      simp
      rw [List.drop_eq_getElem_cons
        (show p.currentBufferIndex <
            (p.bufferedItems.map NextResult.item).length from by
          simpa using hlt)]
      simp

/-- A Next call on an exhausted, non-terminal buffer performs one fetch
and continues on the refilled state. -/
theorem Next_fetch_step (fetch : Option κ → Except ε (List α × Option κ))
    (fuel : Nat) (p : Parser κ α) (items : List α) (lastKey : Option κ)
    (hbuf : p.currentBufferIndex = p.bufferedItems.length)
    (h1 : p.allItemsParsed = false)
    (h2 : p.maxPaginationReached = false)
    (hfetch : fetch p.exclusiveStartkey = .ok (items, lastKey)) :
    Next fetch (fuel + 1) p =
      Next fetch fuel
        { p with exclusiveStartkey := lastKey,
                 currentPage := p.currentPage + 1,
                 bufferedItems := items,
                 currentBufferIndex := 0 } := by
  conv_lhs => rw [Next]
  rw [if_pos hbuf, if_neg (by simp [h1]), if_neg (by simp [h2]), hfetch]

/-- A Next call on an exhausted buffer with the all-items-parsed condition
returns the terminal signal and the untouched state. -/
theorem Next_terminal_all (fetch : Option κ → Except ε (List α × Option κ))
    (fuel : Nat) (p : Parser κ α)
    (hbuf : p.currentBufferIndex = p.bufferedItems.length)
    (hall : p.allItemsParsed = true) :
    Next fetch (fuel + 1) p =
      some (.parsingComplete ⟨"all items have been parsed"⟩, p) := by
  conv_lhs => rw [Next]
  rw [if_pos hbuf, if_pos (by simp [hall])]

/-- A Next call on an exhausted buffer with the page cap reached returns
the terminal signal and the untouched state. -/
theorem Next_terminal_max (fetch : Option κ → Except ε (List α × Option κ))
    (fuel : Nat) (p : Parser κ α)
    (hbuf : p.currentBufferIndex = p.bufferedItems.length)
    (h1 : p.allItemsParsed = false)
    (h2 : p.maxPaginationReached = true) :
    Next fetch (fuel + 1) p =
      some (.parsingComplete ⟨"max pagination has been reached"⟩, p) := by
  conv_lhs => rw [Next]
  rw [if_pos hbuf, if_neg (by simp [h1]), if_pos (by simp [h2])]

/-- Unfolding one pull of runPulls on a successful Next. -/
theorem runPulls_cons (fetch : Option κ → Except ε (List α × Option κ))
    (fuel : Nat) (p p' : Parser κ α) (n : Nat) (r : NextResult α ε)
    (h : Next fetch fuel p = some (r, p')) :
    (runPulls fetch fuel p (n + 1)).1 =
      r :: (runPulls fetch fuel p' n).1 := by
  rw [runPulls, h]

/-- Running the cursor to completion with no page cap: from a state whose
buffer is exhausted and whose fetch offset into the data set is k, the
next (remaining + 1) pulls return the remaining items in order followed
by the all-items-parsed signal. -/
theorem runPulls_uncapped (α ε : Type) (data : List α) (P : Nat)
    (hP : 0 < P) :
    ∀ (n k : Nat) (p : Parser Nat α),
      data.length - k = n →
      k ≤ data.length →
      p.currentBufferIndex = p.bufferedItems.length →
      p.maxPagesSpecified = false →
      0 ≤ p.currentPage →
      (p.exclusiveStartkey = some k ∨
        (p.exclusiveStartkey = none ∧ p.currentPage = 0 ∧ k = 0)) →
      (runPulls (pagedFetch data P ε) 2 p (n + 1)).1 =
        (data.drop k).map NextResult.item ++
          [NextResult.parsingComplete ⟨"all items have been parsed"⟩] := by
  intro n
  induction n using Nat.strong_induction_on with
  | _ n ih =>
    intro k p hn hk hbuf hcap hpage hkey
    have hterm1 : p.allItemsParsed = false := by
      rcases hkey with h | ⟨h1, h2, _⟩
      · simp [Parser.allItemsParsed, Parser.lastEvaluatedKeyIsEmpty, h]
      · simp [Parser.allItemsParsed, Parser.lastEvaluatedKeyIsEmpty, h1, h2]
    have hterm2 : p.maxPaginationReached = false := by
      simp [Parser.maxPaginationReached, hcap]
    have hfetch : pagedFetch data P ε p.exclusiveStartkey =
        .ok ((data.drop k).take P,
          if k + P < data.length then some (k + P) else none) := by
      rcases hkey with h | ⟨h1, _, h3⟩
      · simp [pagedFetch, h]
      · simp [pagedFetch, h1, h3]
    by_cases hkN : k = data.length
    · -- no items remain: the fetched page is empty with an empty key
      have hn0 : n = 0 := by omega
      have hchunk : (data.drop k).take P = ([] : List α) := by
        rw [hkN, List.drop_length, List.take_nil]
      have hnk : ¬ (k + P < data.length) := by omega
      rw [hchunk, if_neg hnk] at hfetch
      have hstep := Next_fetch_step (pagedFetch data P ε) 1 p [] none
        hbuf hterm1 hterm2 hfetch
      have hdone := Next_terminal_all (pagedFetch data P ε) 0
        { p with exclusiveStartkey := none,
                 currentPage := p.currentPage + 1,
                 bufferedItems := ([] : List α),
                 currentBufferIndex := 0 }
        rfl
        (by simp [Parser.allItemsParsed, Parser.lastEvaluatedKeyIsEmpty]
            omega)
      rw [hn0, runPulls_cons (pagedFetch data P ε) 2 p _ 0 _
        (hstep.trans hdone)]
      simp [hkN, List.drop_length, runPulls]
    · -- at least one item remains: the fetched page is nonempty
      have hklt : k < data.length := by omega
      have hL : ((data.drop k).take P).length = min P (data.length - k) := by
        simp [List.length_take, List.length_drop]
      have hLpos : 0 < ((data.drop k).take P).length := by
        rw [hL]
        omega
      have hstep := Next_fetch_step (pagedFetch data P ε) 1 p
        ((data.drop k).take P)
        (if k + P < data.length then some (k + P) else none)
        hbuf hterm1 hterm2 hfetch
      have hitem := Next_buffer_item (pagedFetch data P ε) 0
        { p with exclusiveStartkey :=
                   (if k + P < data.length then some (k + P) else none),
                 currentPage := p.currentPage + 1,
                 bufferedItems := (data.drop k).take P,
                 currentBufferIndex := 0 }
        hLpos
      rw [runPulls_cons (pagedFetch data P ε) 2 p _ n _
        (hstep.trans hitem)]
      have hdrain := runPulls_drain (pagedFetch data P ε) 1
        (((data.drop k).take P).length - 1)
        (n - ((data.drop k).take P).length + 1)
        { p with exclusiveStartkey :=
                   (if k + P < data.length then some (k + P) else none),
                 currentPage := p.currentPage + 1,
                 bufferedItems := (data.drop k).take P,
                 currentBufferIndex := 0 + 1 }
        (by simp)
        (by simp; omega)
      have hLle : ((data.drop k).take P).length ≤ n := by
        rw [hL]
        omega
      rw [show n = (((data.drop k).take P).length - 1) +
          (n - ((data.drop k).take P).length + 1) from by omega, hdrain]
      have hsplit : data.drop k = (data.drop k).take P ++ data.drop (k + P) := by
        conv_lhs => rw [← List.take_append_drop P (data.drop k)]
        rw [List.drop_drop, Nat.add_comm]
      have hchunkmap : ((data.drop k).take P).map NextResult.item =
          NextResult.item (ε := ε) ((data.drop k).take P)[0] ::
            (((data.drop k).take P).drop 1).map NextResult.item := by
        conv_lhs =>
          rw [show (data.drop k).take P =
              ((data.drop k).take P)[0] :: ((data.drop k).take P).drop 1 from by
            rw [← List.drop_eq_getElem_cons hLpos, List.drop_zero]]
        rw [List.map_cons]
      by_cases hkPN : k + P < data.length
      · -- a full page was fetched and pagination continues at k + P
        have hLP : ((data.drop k).take P).length = P := by
          rw [hL]
          omega
        have htail := ih (data.length - (k + P)) (by omega) (k + P)
          { p with exclusiveStartkey :=
                     (if k + P < data.length then some (k + P) else none),
                   currentPage := p.currentPage + 1,
                   bufferedItems := (data.drop k).take P,
                   currentBufferIndex := ((data.drop k).take P).length }
          rfl (by omega) (by simp) (by simp [hcap]) (by simp; omega)
          (by simp [hkPN])
        rw [show n - ((data.drop k).take P).length + 1 =
            data.length - (k + P) + 1 from by omega]
        dsimp only at htail ⊢
        rw [htail]
        conv_rhs => rw [hsplit, List.map_append, List.append_assoc,
          hchunkmap, List.cons_append]
      · -- the final partial page: the returned continuation key is empty
        have hchunkall : (data.drop k).take P = data.drop k :=
          List.take_of_length_le (by simp [List.length_drop]; omega)
        have hm : n - ((data.drop k).take P).length + 1 = 0 + 1 := by
          rw [hL]
          omega
        rw [hm]
        have hdone := Next_terminal_all (pagedFetch data P ε) 1
          { { p with exclusiveStartkey :=
                       (if k + P < data.length then some (k + P) else none),
                     currentPage := p.currentPage + 1,
                     bufferedItems := (data.drop k).take P,
                     currentBufferIndex := 0 + 1 } with
              currentBufferIndex := ((data.drop k).take P).length }
          (by simp)
          (by simp [Parser.allItemsParsed, Parser.lastEvaluatedKeyIsEmpty,
                hkPN]
              omega)
        dsimp only at hdone ⊢
        rw [runPulls_cons (pagedFetch data P ε) 2 _ _ 0 _ hdone]
        conv_rhs => rw [← hchunkall, hchunkmap, List.cons_append]
        simp [runPulls]

/-- Running the cursor against a page cap C: from a state whose buffer is
exhausted after j pages, the next (C - j) * P + 1 pulls return the next
(C - j) * P items in order followed by the max-pagination-reached
signal. -/
theorem runPulls_capped (α ε : Type) (data : List α) (P C : Nat)
    (hP : 0 < P) (hCP : C * P < data.length) :
    ∀ (n j : Nat) (p : Parser Nat α),
      C - j = n →
      j ≤ C →
      p.currentBufferIndex = p.bufferedItems.length →
      p.maxPagesSpecified = true →
      p.maxPages = (C : Int) →
      p.currentPage = (j : Int) →
      (p.exclusiveStartkey = some (j * P) ∨
        (p.exclusiveStartkey = none ∧ j = 0)) →
      (runPulls (pagedFetch data P ε) 2 p (n * P + 1)).1 =
        ((data.drop (j * P)).take (n * P)).map NextResult.item ++
          [NextResult.parsingComplete ⟨"max pagination has been reached"⟩] := by
  intro n
  induction n with
  | zero =>
      intro j p hn hj hbuf hms hmp hcp hkey
      have hjC : j = C := by omega
      have hterm1 : p.allItemsParsed = false := by
        rcases hkey with h | ⟨h1, h2⟩
        · simp [Parser.allItemsParsed, Parser.lastEvaluatedKeyIsEmpty, h]
        · simp [Parser.allItemsParsed, Parser.lastEvaluatedKeyIsEmpty, h1,
            hcp, h2]
      have hterm2 : p.maxPaginationReached = true := by
        simp [Parser.maxPaginationReached, hms, hmp, hcp, hjC]
      have hdone := Next_terminal_max (pagedFetch data P ε) 1 p hbuf
        hterm1 hterm2
      rw [Nat.zero_mul, runPulls_cons (pagedFetch data P ε) 2 _ _ 0 _ hdone]
      simp [runPulls]
  | succ n ihn =>
      intro j p hn hj hbuf hms hmp hcp hkey
      have hjC : j < C := by omega
      have hmul1 : j * P + P = (j + 1) * P := (Nat.succ_mul j P).symm
      have hmul2 : (j + 1) * P ≤ C * P :=
        Nat.mul_le_mul_right P (by omega)
      have hmul3 : n * P + P = (n + 1) * P := (Nat.succ_mul n P).symm
      have hfull : j * P + P < data.length := by omega
      have hterm1 : p.allItemsParsed = false := by
        rcases hkey with h | ⟨h1, h2⟩
        · simp [Parser.allItemsParsed, Parser.lastEvaluatedKeyIsEmpty, h]
        · simp [Parser.allItemsParsed, Parser.lastEvaluatedKeyIsEmpty, h1,
            hcp, h2]
      have hterm2 : p.maxPaginationReached = false := by
        simp [Parser.maxPaginationReached, hms, hmp, hcp]
        omega
      have hfetch : pagedFetch data P ε p.exclusiveStartkey =
          .ok ((data.drop (j * P)).take P,
            if j * P + P < data.length then some (j * P + P) else none) := by
        rcases hkey with h | ⟨h1, h2⟩
        · simp [pagedFetch, h]
        · simp [pagedFetch, h1, h2]
      rw [if_pos hfull] at hfetch
      have hL : ((data.drop (j * P)).take P).length = P := by
        simp only [List.length_take, List.length_drop]
        omega
      have hLpos : 0 < ((data.drop (j * P)).take P).length := by omega
      have hstep := Next_fetch_step (pagedFetch data P ε) 1 p
        ((data.drop (j * P)).take P) (some (j * P + P))
        hbuf hterm1 hterm2 hfetch
      have hitem := Next_buffer_item (pagedFetch data P ε) 0
        { p with exclusiveStartkey := some (j * P + P),
                 currentPage := p.currentPage + 1,
                 bufferedItems := (data.drop (j * P)).take P,
                 currentBufferIndex := 0 }
        hLpos
      rw [show (n + 1) * P + 1 = ((n + 1) * P - 1) + 1 + 1 from by omega,
        runPulls_cons (pagedFetch data P ε) 2 p _ (((n + 1) * P - 1) + 1) _
          (hstep.trans hitem)]
      have hdrain := runPulls_drain (pagedFetch data P ε) 1
        (((data.drop (j * P)).take P).length - 1) (n * P + 1)
        { p with exclusiveStartkey := some (j * P + P),
                 currentPage := p.currentPage + 1,
                 bufferedItems := (data.drop (j * P)).take P,
                 currentBufferIndex := 0 + 1 }
        (by simp)
        (by simp; omega)
      rw [show ((n + 1) * P - 1) + 1 =
          (((data.drop (j * P)).take P).length - 1) + (n * P + 1) from by
        omega, hdrain]
      have htail := ihn (j + 1)
        { p with exclusiveStartkey := some (j * P + P),
                 currentPage := p.currentPage + 1,
                 bufferedItems := (data.drop (j * P)).take P,
                 currentBufferIndex := ((data.drop (j * P)).take P).length }
        (by omega) (by omega) (by simp) (by simp [hms]) (by simp [hmp])
        (by simp [hcp]; try omega) (by simp; try omega)
      dsimp only at htail ⊢
      rw [htail]
      have hchunkmap : ((data.drop (j * P)).take P).map NextResult.item =
          NextResult.item (ε := ε) ((data.drop (j * P)).take P)[0] ::
            (((data.drop (j * P)).take P).drop 1).map NextResult.item := by
        conv_lhs =>
          rw [show (data.drop (j * P)).take P =
              ((data.drop (j * P)).take P)[0] ::
                ((data.drop (j * P)).take P).drop 1 from by
            rw [← List.drop_eq_getElem_cons hLpos, List.drop_zero]]
        rw [List.map_cons]
      conv_rhs =>
        rw [show (n + 1) * P = P + n * P from by omega, List.take_add,
          List.drop_drop, List.map_append, List.append_assoc, hchunkmap,
          List.cons_append]
      rw [show j * P + P = (j + 1) * P from by omega]

/-- C5: over a fixed data set of N items served in pages of size P, a
fresh parser with no cap yields exactly N successful Next pulls returning
the items in order, followed by the all-items-parsed signal; with a cap
C below the page count ceil(N / P), it yields the first C * P items
followed by the max-pagination-reached signal. -/
theorem C5_paginated_pulls (α : Type) (data : List α) (P : Nat)
    (hP : 0 < P) :
    ((runPulls (pagedFetch data P Unit) 2 (NewQueryParser Nat α)
        (data.length + 1)).1 =
      data.map NextResult.item ++
        [NextResult.parsingComplete ⟨"all items have been parsed"⟩]) ∧
    (∀ C : Nat, C < (data.length + P - 1) / P →
      (runPulls (pagedFetch data P Unit) 2
          ((NewQueryParser Nat α).SetMaxPagination (C : Int))
          (C * P + 1)).1 =
        (data.take (C * P)).map NextResult.item ++
          [NextResult.parsingComplete ⟨"max pagination has been reached"⟩]) := by
  constructor
  · have h := runPulls_uncapped α Unit data P hP data.length 0
      (NewQueryParser Nat α) (by omega) (by omega) rfl rfl le_rfl
      (Or.inr ⟨rfl, rfl, rfl⟩)
    simpa using h
  · intro C hC
    have h0 : C + 1 ≤ (data.length + P - 1) / P := hC
    have h1 := (Nat.le_div_iff_mul_le hP).1 h0
    have h2 : (C + 1) * P = C * P + P := Nat.succ_mul C P
    have hCP : C * P < data.length := by omega
    have h := runPulls_capped α Unit data P C hP hCP C 0
      ((NewQueryParser Nat α).SetMaxPagination (C : Int))
      (by omega) (by omega) rfl rfl rfl rfl (Or.inr ⟨rfl, rfl⟩)
    simpa using h

/-- Witness for C5_paginated_pulls: three items in pages of two, uncapped
and capped at one page. -/
theorem C5_paginated_pulls_witness :
    (runPulls (pagedFetch [10, 20, 30] 2 Unit) 2
        (NewQueryParser Nat Nat) 4).1 =
      [NextResult.item 10, NextResult.item 20, NextResult.item 30,
       NextResult.parsingComplete ⟨"all items have been parsed"⟩] ∧
    (runPulls (pagedFetch [10, 20, 30] 2 Unit) 2
        ((NewQueryParser Nat Nat).SetMaxPagination 1) 3).1 =
      [NextResult.item 10, NextResult.item 20,
       NextResult.parsingComplete ⟨"max pagination has been reached"⟩] := by
  have h := C5_paginated_pulls Nat [10, 20, 30] 2 (by decide)
  exact ⟨h.1, h.2 1 (by decide)⟩

end Autoquery
